/-
Verification of the 1-d Schrödinger solver pipeline (sgl.py).

Shallow embedding over exact real arithmetic (ℝ): numpy arrays indexed by
`Fin`, the float operations of the source replaced by their real-number
counterparts.  External library calls (scipy, numpy) are modelled by their
documented semantics where a claim depends on them (np.linspace,
scipy.interpolate.interp1d with default bounds_error, and
scipy.linalg.eigh_tridiagonal with index selection); the cubic-spline and
polynomial interpolants, whose values no claim depends on, are passed in as
parameters.
-/
import Mathlib

open Finset

/-- np.linspace(a, b, num): `num` evenly spaced samples from `a` to `b`
inclusive; step (b-a)/(num-1).  For num = 1 numpy returns [a], which the
formula also gives here since division by zero is zero in ℝ. -/
noncomputable def linspace (a b : ℝ) (num : ℕ) : Fin num → ℝ :=
  fun i => a + i * ((b - a) / ((num : ℝ) - 1))

/-- The configuration record produced by iomodul.read_schrodinger_inp.
`m + 2` is the number of interpolation control points (so there are always
at least two, as the format requires). -/
structure Para (m : ℕ) where
  xMin : ℝ
  xMax : ℝ
  nPoints : ℕ
  mass : ℝ
  interpolation_type : String
  interpolation_points_x : Fin (m + 2) → ℝ
  interpolation_points_y : Fin (m + 2) → ℝ
  first_eigenvalue : ℕ
  last_eigenvalue : ℕ

/-- The simulation grid, sgl.py line 27 and 106:
np.linspace(para[xMin], para[xMax], para[nPoints]). -/
noncomputable def xaxis {m : ℕ} (p : Para m) : Fin p.nPoints → ℝ :=
  linspace p.xMin p.xMax p.nPoints

/-- sgl.py line 43: delta = np.abs(para[xMax]-para[xMin])/para[nPoints];
stored into para[Delta] and reused by the normalizer and the observables. -/
noncomputable def delta {m : ℕ} (p : Para m) : ℝ :=
  |p.xMax - p.xMin| / (p.nPoints : ℝ)

/-- sgl.py line 45: aa = 1/(para[mass]*delta**2). -/
noncomputable def aa {m : ℕ} (p : Para m) : ℝ :=
  1 / (p.mass * (delta p) ^ 2)

/-- sgl.py line 46: hamiltonian_diag = aa + potential (elementwise). -/
noncomputable def hamiltonian_diag {m : ℕ} (p : Para m)
    (potential : Fin p.nPoints → ℝ) : Fin p.nPoints → ℝ :=
  fun i => aa p + potential i

/-- sgl.py line 47: hamiltonian_offdiag = -aa/2*np.ones(nPoints-1). -/
noncomputable def hamiltonian_offdiag {m : ℕ} (p : Para m) :
    Fin (p.nPoints - 1) → ℝ :=
  fun _ => -(aa p) / 2 * 1

/-- The index set of the python slice v[1:-1] on an array of length n:
positions 1 .. n-2 (0-based), excluding the two boundary samples. -/
def interiorIdx (n : ℕ) : Finset (Fin n) :=
  Finset.univ.filter fun i => 0 < (i : ℕ) ∧ (i : ℕ) < n - 1

/-- sgl.py line 53: eigenvector_norm = Delta * sum(abs(v[1:-1])**2) for one
column v. -/
noncomputable def eigenvector_norm {n : ℕ} (dlt : ℝ) (v : Fin n → ℝ) : ℝ :=
  dlt * ∑ i ∈ interiorIdx n, |v i| ^ 2

/-- sgl.py lines 51-55 (_norm_eigenvectors): every column ii is divided by
sqrt of its interior quadrature sum.  Eigenvectors are stored with the row
index first (grid point) and the column index second (eigenstate), as in the
numpy array. -/
noncomputable def norm_eigenvectors {n k : ℕ} (dlt : ℝ)
    (ev : Fin n → Fin k → ℝ) : Fin n → Fin k → ℝ :=
  fun i j => ev i j / Real.sqrt (eigenvector_norm dlt (fun i2 => ev i2 j))

/-- sgl.py line 77: x_i = np.linspace(xMin+delta, xMax-delta, nPoints-2). -/
noncomputable def x_i {m : ℕ} (p : Para m) : Fin (p.nPoints - 2) → ℝ :=
  linspace (p.xMin + delta p) (p.xMax - delta p) (p.nPoints - 2)

/-- sgl.py line 79: expval[ii] = delta*np.sum(ev[1:-1, ii]**2*x_i).  The
slice entry q of ev[1:-1, ii] is row q+1 of the full array. -/
noncomputable def expval {m k : ℕ} (p : Para m)
    (ev : Fin p.nPoints → Fin k → ℝ) (j : Fin k) : ℝ :=
  delta p * ∑ q : Fin (p.nPoints - 2),
    (ev ⟨(q : ℕ) + 1, by have := q.isLt; omega⟩ j) ^ 2 * x_i p q

/-- sgl.py line 80: expval_squared[ii] = delta*np.sum(ev[1:-1, ii]**2*x_i**2). -/
noncomputable def expval_squared {m k : ℕ} (p : Para m)
    (ev : Fin p.nPoints → Fin k → ℝ) (j : Fin k) : ℝ :=
  delta p * ∑ q : Fin (p.nPoints - 2),
    (ev ⟨(q : ℕ) + 1, by have := q.isLt; omega⟩ j) ^ 2 * (x_i p q) ^ 2

/-- sgl.py line 81: uncertainty[ii] = np.sqrt(expval_squared[ii]-expval[ii]**2). -/
noncomputable def uncertainty {m k : ℕ} (p : Para m)
    (ev : Fin p.nPoints → Fin k → ℝ) (j : Fin k) : ℝ :=
  Real.sqrt (expval_squared p ev j - (expval p ev j) ^ 2)

/-- sgl.py lines 58-82 (expectation_values): the pair of arrays handed to
iomodul.write_expectation_values, i.e. the output of the observables stage. -/
noncomputable def expectation_values {m k : ℕ} (p : Para m)
    (ev : Fin p.nPoints → Fin k → ℝ) : (Fin k → ℝ) × (Fin k → ℝ) :=
  (fun j => expval p ev j, fun j => uncertainty p ev j)

/-- The abstract error taxonomy of the spec: a bad configuration aborts the
run (in the source an unknown method name leaves interpolation_fun unbound,
so python raises at line 36 before any potential value is computed), and
scipy.interpolate.interp1d raises when asked for a point outside the support
of the control points (bounds_error defaults to true). -/
inductive SglError where
  | configError
  | domainError

/-- np.searchsorted(xs, x) with side left: the number of control points
strictly below x. -/
noncomputable def countLt {M : ℕ} (xs : Fin M → ℝ) (x : ℝ) : ℕ :=
  (Finset.univ.filter fun i => xs i < x).card

/-- The left-knot index used by scipy's linear interpolation: searchsorted
clipped to [1, M-1], minus one (the source's control point arrays have
m + 2 entries). -/
noncomputable def interpIdx {m : ℕ} (xs : Fin (m + 2) → ℝ) (x : ℝ) :
    Fin (m + 1) :=
  ⟨min (max (countLt xs x) 1) (m + 1) - 1, by omega⟩

/-- The piecewise-linear value scipy computes inside the support:
y_lo + (y_hi - y_lo) * (x - x_lo) / (x_hi - x_lo) on the selected interval. -/
noncomputable def linear_value {m : ℕ} (xs ys : Fin (m + 2) → ℝ) (x : ℝ) :
    ℝ :=
  ys (interpIdx xs x).castSucc +
    (ys (interpIdx xs x).succ - ys (interpIdx xs x).castSucc) *
      (x - xs (interpIdx xs x).castSucc) /
      (xs (interpIdx xs x).succ - xs (interpIdx xs x).castSucc)

open Classical in
/-- scipy.interpolate.interp1d(x_points, y_points) evaluated at one point:
with the default bounds_error behaviour a point outside
[xs 0, xs last] raises, otherwise the piecewise-linear value is returned. -/
noncomputable def interp1d {m : ℕ} (xs ys : Fin (m + 2) → ℝ) (x : ℝ) :
    Except SglError ℝ :=
  if xs 0 ≤ x ∧ x ≤ xs (Fin.last (m + 1)) then .ok (linear_value xs ys x)
  else .error .domainError

open Classical in
/-- interpolation_fun(xaxis) for the linear method: the vectorized call
raises as soon as any grid point is out of bounds, otherwise it returns all
interpolated values. -/
noncomputable def interp_grid {m P : ℕ} (xs ys : Fin (m + 2) → ℝ)
    (g : Fin P → ℝ) : Except SglError (Fin P → ℝ) :=
  if ∀ i, xs 0 ≤ g i ∧ g i ≤ xs (Fin.last (m + 1)) then
    .ok fun i => linear_value xs ys (g i)
  else .error .domainError

open Classical in
/-- sgl.py lines 13-38 (interpolate_potential): dispatch on the method name.
The cspline and polynomial interpolants are external library objects
(scipy.interpolate.CubicSpline, np.polyfit/np.poly1d) whose pointwise values
no claim depends on; they are taken as parameters.  A name matching none of
the three branches leaves the interpolation function unbound and the run
aborts (modelled as a configuration error). -/
noncomputable def interpolate_potential {m : ℕ} (p : Para m)
    (cspline_fun poly_fun : ℝ → ℝ) : Except SglError (Fin p.nPoints → ℝ) :=
  if p.interpolation_type = "linear" then
    interp_grid p.interpolation_points_x p.interpolation_points_y (xaxis p)
  else if p.interpolation_type = "cspline" then
    .ok fun i => cspline_fun (xaxis p i)
  else if p.interpolation_type = "polynomial" then
    .ok fun i => poly_fun (xaxis p i)
  else .error .configError

/-- The full symmetric tridiagonal matrix represented by the two bands
(diagonal d, off-diagonal e) handed to scipy.linalg.eigh_tridiagonal. -/
noncomputable def tridiag (n : ℕ) (d : Fin n → ℝ) (e : Fin (n - 1) → ℝ) :
    Matrix (Fin n) (Fin n) ℝ :=
  Matrix.of fun i j =>
    if (i : ℕ) = (j : ℕ) then d i
    else if h : (i : ℕ) + 1 = (j : ℕ) then e ⟨i, by have := j.isLt; omega⟩
    else if h2 : (j : ℕ) + 1 = (i : ℕ) then e ⟨j, by have := i.isLt; omega⟩
    else 0

theorem tridiag_isHermitian (n : ℕ) (d : Fin n → ℝ) (e : Fin (n - 1) → ℝ) :
    (tridiag n d e).IsHermitian := by
  rw [Matrix.IsHermitian]
  ext i j
  simp only [Matrix.conjTranspose_apply, tridiag, Matrix.of_apply, star_trivial]
  split_ifs with h1 h2 h3 h4 h5 h6 <;>
    first
      | rfl
      | omega
      | (exact congrArg d (Fin.ext (by omega)))

/-- The eigenvalues of the full matrix listed in ascending order (the order
eigh_tridiagonal guarantees), obtained by sorting the spectral-theorem
enumeration. -/
noncomputable def spectrum_sorted (n : ℕ) (d : Fin n → ℝ)
    (e : Fin (n - 1) → ℝ) : Fin n → ℝ :=
  fun i => (tridiag_isHermitian n d e).eigenvalues
    (Tuple.sort (tridiag_isHermitian n d e).eigenvalues i)

/-- The orthonormal eigenvectors of the full matrix, reordered to match
`spectrum_sorted`. -/
noncomputable def eigvec_sorted (n : ℕ) (d : Fin n → ℝ)
    (e : Fin (n - 1) → ℝ) : Fin n → (Fin n → ℝ) :=
  fun i => ⇑((tridiag_isHermitian n d e).eigenvectorBasis
    (Tuple.sort (tridiag_isHermitian n d e).eigenvalues i))

/-- scipy.linalg.eigh_tridiagonal(d, e, select = i, select_range = (lo, hi)):
the eigenvalues with (0-based) indices lo..hi in the ascending order of the
full spectrum.  Indices past the matrix size (which make scipy raise) are
padded with 0 here; the claims only use in-range indices. -/
noncomputable def eigh_tridiagonal_vals (n : ℕ) (d : Fin n → ℝ)
    (e : Fin (n - 1) → ℝ) (lo hi : ℕ) : Fin (hi + 1 - lo) → ℝ :=
  fun q => if h : lo + (q : ℕ) < n then spectrum_sorted n d e ⟨lo + q, h⟩
  else 0

/-- The eigenvectors paired with `eigh_tridiagonal_vals`, each of length n. -/
noncomputable def eigh_tridiagonal_vecs (n : ℕ) (d : Fin n → ℝ)
    (e : Fin (n - 1) → ℝ) (lo hi : ℕ) : Fin (hi + 1 - lo) → (Fin n → ℝ) :=
  fun q => if h : lo + (q : ℕ) < n then eigvec_sorted n d e ⟨lo + q, h⟩
  else fun _ => 0

/-- sgl.py lines 41-48 (_write_hamiltonian): interpolate the potential and
build the two bands. -/
noncomputable def write_hamiltonian {m : ℕ} (p : Para m)
    (cspline_fun poly_fun : ℝ → ℝ) :
    Except SglError ((Fin p.nPoints → ℝ) × (Fin (p.nPoints - 1) → ℝ)) :=
  (interpolate_potential p cspline_fun poly_fun).map fun V =>
    (hamiltonian_diag p V, hamiltonian_offdiag p)

/-- sgl.py lines 85-108 (solve_hamiltonian): build the bands, take the
eigenpair band with 0-based indices first_eigenvalue-1 .. last_eigenvalue-1,
and normalize the eigenvector columns. -/
noncomputable def solve_hamiltonian {m : ℕ} (p : Para m)
    (cspline_fun poly_fun : ℝ → ℝ) :
    Except SglError
      ((Fin (p.last_eigenvalue - 1 + 1 - (p.first_eigenvalue - 1)) → ℝ) ×
       (Fin p.nPoints →
         Fin (p.last_eigenvalue - 1 + 1 - (p.first_eigenvalue - 1)) → ℝ)) :=
  (write_hamiltonian p cspline_fun poly_fun).map fun de =>
    (eigh_tridiagonal_vals p.nPoints de.1 de.2 (p.first_eigenvalue - 1)
       (p.last_eigenvalue - 1),
     norm_eigenvectors (delta p) fun i q =>
       eigh_tridiagonal_vecs p.nPoints de.1 de.2 (p.first_eigenvalue - 1)
         (p.last_eigenvalue - 1) q i)

theorem norm_col_eq_one {n : ℕ} (dlt : ℝ) (v : Fin n → ℝ)
    (h : 0 < eigenvector_norm dlt v) :
    eigenvector_norm dlt
      (fun i => v i / Real.sqrt (eigenvector_norm dlt v)) = 1 := by
  have hs : Real.sqrt (eigenvector_norm dlt v) ^ 2 = eigenvector_norm dlt v :=
    Real.sq_sqrt h.le
  have hne : eigenvector_norm dlt v ≠ 0 := ne_of_gt h
  have hterm : ∀ i : Fin n,
      |v i / Real.sqrt (eigenvector_norm dlt v)| ^ 2
        = |v i| ^ 2 / eigenvector_norm dlt v := by
    intro i
    rw [abs_div, div_pow, abs_of_nonneg (Real.sqrt_nonneg _), hs]
  conv_lhs => rw [eigenvector_norm]
  rw [Finset.sum_congr rfl fun i _ => hterm i, ← Finset.sum_div,
    ← mul_div_assoc]
  exact div_self hne

theorem norm_col_one {n k : ℕ} (dlt : ℝ) (ev : Fin n → Fin k → ℝ) (j : Fin k)
    (h : 0 < eigenvector_norm dlt fun i => ev i j) :
    eigenvector_norm dlt (fun i => norm_eigenvectors dlt ev i j) = 1 := by
  simpa [norm_eigenvectors] using norm_col_eq_one dlt (fun i => ev i j) h

/-- C2: for every potential sample sequence V of length nPoints, positive
mass and positive spacing, the Hamiltonian builder produces
diagonal[i] = a + V[i] with a = 1/(mass*Delta^2) for every i, and an
off-diagonal sequence of length nPoints-1 (its index type) whose every entry
is the constant -a/2. -/
theorem hamiltonian_entries {m : ℕ} (p : Para m) (V : Fin p.nPoints → ℝ)
    (_hm : 0 < p.mass) (_hd : 0 < delta p) :
    (∀ i, hamiltonian_diag p V i = 1 / (p.mass * (delta p) ^ 2) + V i) ∧
    (∀ i : Fin (p.nPoints - 1),
      hamiltonian_offdiag p i = -(1 / (p.mass * (delta p) ^ 2)) / 2) := by
  constructor <;> intro i
  · rfl
  · show -(aa p) / 2 * 1 = -(1 / (p.mass * (delta p) ^ 2)) / 2
    rw [aa, mul_one]

/-- C4: after the normalizer runs, every column whose interior quadrature
sum was strictly positive satisfies
Delta * sum of squared interior components = 1, the sum excluding the first
and last sample. -/
theorem norm_eigenvectors_unit_norm {n k : ℕ} (dlt : ℝ)
    (ev : Fin n → Fin k → ℝ)
    (h : ∀ j, 0 < eigenvector_norm dlt fun i => ev i j) :
    ∀ j, eigenvector_norm dlt (fun i => norm_eigenvectors dlt ev i j) = 1 :=
  fun j => norm_col_one dlt ev j (h j)

/-- C9: the normalizer is idempotent on sets whose columns have positive
interior quadrature sums: a second application returns exactly the same
values (over exact arithmetic). -/
theorem norm_eigenvectors_idempotent {n k : ℕ} (dlt : ℝ)
    (ev : Fin n → Fin k → ℝ)
    (h : ∀ j, 0 < eigenvector_norm dlt fun i => ev i j) :
    norm_eigenvectors dlt (norm_eigenvectors dlt ev)
      = norm_eigenvectors dlt ev := by
  funext i j
  show norm_eigenvectors dlt ev i j /
      Real.sqrt (eigenvector_norm dlt
        (fun i2 => norm_eigenvectors dlt ev i2 j))
    = norm_eigenvectors dlt ev i j
  rw [norm_col_one dlt ev j (h j), Real.sqrt_one, div_one]

/-- C10: normalization divides all components of a column, boundary samples
included, by the single positive scalar sqrt of its interior quadrature sum,
so the normalized column is a positive scalar multiple of the input column
and is still an eigenvector of the same eigenvalue of the same tridiagonal
Hamiltonian. -/
theorem norm_eigenvectors_scalar_multiple {n k : ℕ} (dlt : ℝ)
    (ev : Fin n → Fin k → ℝ) (d : Fin n → ℝ) (e : Fin (n - 1) → ℝ) (mu : ℝ)
    (j : Fin k) (h : 0 < eigenvector_norm dlt fun i => ev i j)
    (heig : Matrix.mulVec (tridiag n d e) (fun i => ev i j)
      = mu • fun i => ev i j)
    (hvne : (fun i => ev i j) ≠ 0) :
    ∃ c : ℝ, 0 < c ∧
      (∀ i, norm_eigenvectors dlt ev i j = c * ev i j) ∧
      Matrix.mulVec (tridiag n d e) (fun i => norm_eigenvectors dlt ev i j)
        = mu • (fun i => norm_eigenvectors dlt ev i j) ∧
      (fun i => norm_eigenvectors dlt ev i j) ≠ 0 := by
  have hsq : 0 < Real.sqrt (eigenvector_norm dlt fun i => ev i j) :=
    Real.sqrt_pos.mpr h
  refine ⟨(Real.sqrt (eigenvector_norm dlt fun i => ev i j))⁻¹,
    inv_pos.mpr hsq, fun i => div_eq_inv_mul _ _, ?_, ?_⟩
  · have hfun : (fun i => norm_eigenvectors dlt ev i j)
        = (Real.sqrt (eigenvector_norm dlt fun i => ev i j))⁻¹
          • fun i => ev i j := by
      funext i
      exact div_eq_inv_mul _ _
    rw [hfun, Matrix.mulVec_smul, heig, smul_comm]
  · have hcne : (Real.sqrt (eigenvector_norm dlt fun i => ev i j))⁻¹ ≠ 0 :=
      inv_ne_zero (ne_of_gt hsq)
    have hfun : (fun i => norm_eigenvectors dlt ev i j)
        = (Real.sqrt (eigenvector_norm dlt fun i => ev i j))⁻¹
          • fun i => ev i j := by
      funext i
      exact div_eq_inv_mul _ _
    rw [hfun]
    exact smul_ne_zero hcne hvne

/-- A concrete configuration used to instantiate theorems with hypotheses. -/
noncomputable def paraW : Para 0 :=
  ⟨0, 1, 4, 1, "linear", ![0, 1], ![0, 0], 1, 2⟩

theorem hamiltonian_entries_witness :
    (∀ i, hamiltonian_diag paraW (fun _ => (0 : ℝ)) i
        = 1 / (paraW.mass * (delta paraW) ^ 2) + (fun _ => (0 : ℝ)) i) ∧
    (∀ i : Fin (paraW.nPoints - 1),
      hamiltonian_offdiag paraW i
        = -(1 / (paraW.mass * (delta paraW) ^ 2)) / 2) :=
  hamiltonian_entries paraW (fun _ => 0) (by norm_num [paraW])
    (by norm_num [delta, paraW])

/-- A concrete 3-point eigenvector set with one column (0, 2, 0), whose
interior quadrature sum is positive. -/
def evW : Fin 3 → Fin 1 → ℝ := fun i _ => if (i : ℕ) = 1 then 2 else 0

theorem evW_pos : ∀ j : Fin 1, 0 < eigenvector_norm 1 fun i => evW i j := by
  intro j
  norm_num [eigenvector_norm, interiorIdx, Finset.sum_filter,
    Fin.sum_univ_three, evW]

theorem norm_eigenvectors_unit_norm_witness :
    eigenvector_norm 1 (fun i => norm_eigenvectors 1 evW i 0) = 1 :=
  norm_eigenvectors_unit_norm 1 evW evW_pos 0

theorem norm_eigenvectors_idempotent_witness :
    norm_eigenvectors 1 (norm_eigenvectors 1 evW) = norm_eigenvectors 1 evW :=
  norm_eigenvectors_idempotent 1 evW evW_pos

theorem norm_eigenvectors_scalar_multiple_witness :
    ∃ c : ℝ, 0 < c ∧
      (∀ i, norm_eigenvectors 1 evW i 0 = c * evW i 0) ∧
      Matrix.mulVec (tridiag 3 ![5, 5, 5] ![0, 0])
          (fun i => norm_eigenvectors 1 evW i 0)
        = (5 : ℝ) • (fun i => norm_eigenvectors 1 evW i 0) ∧
      (fun i => norm_eigenvectors 1 evW i 0) ≠ 0 :=
  norm_eigenvectors_scalar_multiple 1 evW ![5, 5, 5] ![0, 0] 5 0 (evW_pos 0)
    (by
      funext i
      fin_cases i <;>
        norm_num [Matrix.mulVec, Matrix.dotProduct, tridiag,
          Fin.sum_univ_three, evW])
    (by
      intro h0
      have h1 := congrFun h0 1
      norm_num [evW] at h1)

/-- Concrete configuration exhibiting the grid-spacing mismatch. -/
noncomputable def paraC3 : Para 0 :=
  ⟨0, 1, 4, 1, "linear", ![0, 1], ![0, 0], 1, 2⟩

/-- C3 counterexample: with xMin = 0, xMax = 1, nPoints = 4 the simulation
grid np.linspace(0, 1, 4) has consecutive spacing 1/3, while the canonical
value Delta = (xMax - xMin)/nPoints is 1/4: the claimed equality of the two
fails. -/
theorem grid_spacing_ne_delta :
    xaxis paraC3 = linspace 0 1 4 ∧
    linspace 0 1 4 1 - linspace 0 1 4 0 = 1 / 3 ∧
    delta paraC3 = 1 / 4 ∧ (1 / 3 : ℝ) ≠ 1 / 4 := by
  refine ⟨rfl, ?_, ?_, by norm_num⟩
  · norm_num [linspace]
  · norm_num [delta, paraC3]

/-- C3 amended: for xMax > xMin and nPoints >= 3 the grid is the uniform
ordered sequence of nPoints coordinates running from xMin to xMax, with
consecutive spacing (xMax - xMin)/(nPoints - 1); the canonical value
Delta = (xMax - xMin)/nPoints (the single value the Hamiltonian builder
stores and the normalizer and observables reuse) differs from that grid
spacing. -/
theorem grid_uniform_and_delta {m : ℕ} (p : Para m) (hx : p.xMin < p.xMax)
    (hn : 3 ≤ p.nPoints) :
    xaxis p ⟨0, by omega⟩ = p.xMin ∧
    xaxis p ⟨p.nPoints - 1, by omega⟩ = p.xMax ∧
    StrictMono (xaxis p) ∧
    (∀ q : Fin (p.nPoints - 1),
      xaxis p ⟨(q : ℕ) + 1, by have := q.isLt; omega⟩
          - xaxis p ⟨(q : ℕ), by have := q.isLt; omega⟩
        = (p.xMax - p.xMin) / ((p.nPoints : ℝ) - 1)) ∧
    delta p = (p.xMax - p.xMin) / (p.nPoints : ℝ) ∧
    delta p ≠ (p.xMax - p.xMin) / ((p.nPoints : ℝ) - 1) := by
  have hL : (0 : ℝ) < p.xMax - p.xMin := sub_pos.mpr hx
  have hN : (3 : ℝ) ≤ (p.nPoints : ℝ) := by exact_mod_cast hn
  have hN0 : (p.nPoints : ℝ) ≠ 0 := by linarith
  have hN1 : (p.nPoints : ℝ) - 1 ≠ 0 := by linarith
  have hdelta : delta p = (p.xMax - p.xMin) / (p.nPoints : ℝ) := by
    rw [delta, abs_of_pos hL]
  refine ⟨?_, ?_, ?_, ?_, hdelta, ?_⟩
  · simp [xaxis, linspace]
  · show p.xMin + (((p.nPoints - 1 : ℕ) : ℝ))
        * ((p.xMax - p.xMin) / ((p.nPoints : ℝ) - 1)) = p.xMax
    have hcast : ((p.nPoints - 1 : ℕ) : ℝ) = (p.nPoints : ℝ) - 1 := by
      have : 1 ≤ p.nPoints := by omega
      push_cast [this]
      ring
    rw [hcast]
    field_simp
  · intro a b hab
    have hs : (0 : ℝ) < (p.xMax - p.xMin) / ((p.nPoints : ℝ) - 1) :=
      div_pos hL (by linarith)
    have hv : ((a : ℕ) : ℝ) < ((b : ℕ) : ℝ) := by
      exact_mod_cast (Fin.lt_def.mp hab)
    show p.xMin + (a : ℕ) * ((p.xMax - p.xMin) / ((p.nPoints : ℝ) - 1))
        < p.xMin + (b : ℕ) * ((p.xMax - p.xMin) / ((p.nPoints : ℝ) - 1))
    have := mul_lt_mul_of_pos_right hv hs
    linarith
  · intro q
    show p.xMin + (((q : ℕ) + 1 : ℕ) : ℝ)
          * ((p.xMax - p.xMin) / ((p.nPoints : ℝ) - 1))
        - (p.xMin + ((q : ℕ) : ℝ)
          * ((p.xMax - p.xMin) / ((p.nPoints : ℝ) - 1)))
      = (p.xMax - p.xMin) / ((p.nPoints : ℝ) - 1)
    push_cast
    ring
  · rw [hdelta]
    intro heq
    rw [div_eq_div_iff hN0 hN1] at heq
    nlinarith [hL]

/-- Concrete configuration exhibiting the interior-axis spacing mismatch. -/
noncomputable def paraC5 : Para 0 :=
  ⟨0, 1, 5, 1, "linear", ![0, 1], ![0, 0], 1, 1⟩

/-- C5 counterexample: with xMin = 0, xMax = 1, nPoints = 5 the canonical
Delta is 1/5, but consecutive entries of the observables' interior axis
x_i = np.linspace(xMin+Delta, xMax-Delta, nPoints-2) differ by 3/10: the
interior coordinates do not advance in steps of Delta. -/
theorem x_i_spacing_ne_delta :
    x_i paraC5 ⟨1, by norm_num [paraC5]⟩ - x_i paraC5 ⟨0, by norm_num [paraC5]⟩
        = 3 / 10 ∧
    delta paraC5 = 1 / 5 ∧ (3 / 10 : ℝ) ≠ 1 / 5 := by
  refine ⟨?_, ?_, by norm_num⟩
  · norm_num [x_i, linspace, delta, paraC5]
  · norm_num [delta, paraC5]

/-- C5 amended: the observables stage outputs, per eigenstate, exactly the
pair (expval, uncertainty) with expval = Delta * sum of psi^2 * x over the
nPoints-2 interior slice entries, uncertainty = sqrt of
(expval_squared - expval^2), and the interior axis runs from xMin+Delta to
xMax-Delta; but its uniform step is (xMax - xMin - 2*Delta)/(nPoints - 3),
not Delta. -/
theorem expectation_values_formulas {m k : ℕ} (p : Para m)
    (ev : Fin p.nPoints → Fin k → ℝ) (j : Fin k) (hn : 4 ≤ p.nPoints) :
    (expectation_values p ev).1 j
        = delta p * ∑ q : Fin (p.nPoints - 2),
            (ev ⟨(q : ℕ) + 1, by have := q.isLt; omega⟩ j) ^ 2 * x_i p q ∧
    (expectation_values p ev).2 j
        = Real.sqrt (expval_squared p ev j - (expval p ev j) ^ 2) ∧
    expval_squared p ev j
        = delta p * ∑ q : Fin (p.nPoints - 2),
            (ev ⟨(q : ℕ) + 1, by have := q.isLt; omega⟩ j) ^ 2
              * (x_i p q) ^ 2 ∧
    x_i p ⟨0, by omega⟩ = p.xMin + delta p ∧
    x_i p ⟨p.nPoints - 3, by omega⟩ = p.xMax - delta p ∧
    (∀ q : Fin (p.nPoints - 3),
      x_i p ⟨(q : ℕ) + 1, by have := q.isLt; omega⟩
          - x_i p ⟨(q : ℕ), by have := q.isLt; omega⟩
        = (p.xMax - p.xMin - 2 * delta p) / ((p.nPoints : ℝ) - 3)) := by
  have h2 : ((p.nPoints - 2 : ℕ) : ℝ) = (p.nPoints : ℝ) - 2 := by
    have : 2 ≤ p.nPoints := by omega
    push_cast [this]
    ring
  refine ⟨rfl, rfl, rfl, ?_, ?_, ?_⟩
  · simp [x_i, linspace]
  · show p.xMin + delta p + ((p.nPoints - 3 : ℕ) : ℝ)
        * ((p.xMax - delta p - (p.xMin + delta p))
          / (((p.nPoints - 2 : ℕ) : ℝ) - 1)) = p.xMax - delta p
    have h3 : ((p.nPoints - 3 : ℕ) : ℝ) = (p.nPoints : ℝ) - 3 := by
      have : 3 ≤ p.nPoints := by omega
      push_cast [this]
      ring
    have hden : ((p.nPoints : ℝ)) - 2 - 1 ≠ 0 := by
      have : (4 : ℝ) ≤ (p.nPoints : ℝ) := by exact_mod_cast hn
      linarith
    rw [h3, h2]
    field_simp
    ring
  · intro q
    show p.xMin + delta p + (((q : ℕ) + 1 : ℕ) : ℝ)
          * ((p.xMax - delta p - (p.xMin + delta p))
            / (((p.nPoints - 2 : ℕ) : ℝ) - 1))
        - (p.xMin + delta p + ((q : ℕ) : ℝ)
          * ((p.xMax - delta p - (p.xMin + delta p))
            / (((p.nPoints - 2 : ℕ) : ℝ) - 1)))
      = (p.xMax - p.xMin - 2 * delta p) / ((p.nPoints : ℝ) - 3)
    rw [h2]
    push_cast
    ring_nf

theorem grid_uniform_and_delta_witness :
    xaxis paraC3 ⟨0, by norm_num [paraC3]⟩ = paraC3.xMin ∧
    xaxis paraC3 ⟨paraC3.nPoints - 1, by norm_num [paraC3]⟩ = paraC3.xMax ∧
    StrictMono (xaxis paraC3) ∧
    (∀ q : Fin (paraC3.nPoints - 1),
      xaxis paraC3 ⟨(q : ℕ) + 1, by have := q.isLt; omega⟩
          - xaxis paraC3 ⟨(q : ℕ), by have := q.isLt; omega⟩
        = (paraC3.xMax - paraC3.xMin) / ((paraC3.nPoints : ℝ) - 1)) ∧
    delta paraC3 = (paraC3.xMax - paraC3.xMin) / (paraC3.nPoints : ℝ) ∧
    delta paraC3 ≠ (paraC3.xMax - paraC3.xMin) / ((paraC3.nPoints : ℝ) - 1) :=
  grid_uniform_and_delta paraC3 (by norm_num [paraC3]) (by norm_num [paraC3])

/-- The all-zero eigenvector set used to instantiate the observables
theorem. -/
def evZ : Fin paraC5.nPoints → Fin 1 → ℝ := fun _ _ => 0

theorem expectation_values_formulas_witness :
    (expectation_values paraC5 evZ).1 0
        = delta paraC5 * ∑ q : Fin (paraC5.nPoints - 2),
            (evZ ⟨(q : ℕ) + 1, by have := q.isLt; omega⟩ 0)
              ^ 2 * x_i paraC5 q ∧
    (expectation_values paraC5 evZ).2 0
        = Real.sqrt (expval_squared paraC5 evZ 0
            - (expval paraC5 evZ 0) ^ 2) ∧
    expval_squared paraC5 evZ 0
        = delta paraC5 * ∑ q : Fin (paraC5.nPoints - 2),
            (evZ ⟨(q : ℕ) + 1, by have := q.isLt; omega⟩ 0)
              ^ 2 * (x_i paraC5 q) ^ 2 ∧
    x_i paraC5 ⟨0, by norm_num [paraC5]⟩ = paraC5.xMin + delta paraC5 ∧
    x_i paraC5 ⟨paraC5.nPoints - 3, by norm_num [paraC5]⟩
        = paraC5.xMax - delta paraC5 ∧
    (∀ q : Fin (paraC5.nPoints - 3),
      x_i paraC5 ⟨(q : ℕ) + 1, by have := q.isLt; omega⟩
          - x_i paraC5 ⟨(q : ℕ), by have := q.isLt; omega⟩
        = (paraC5.xMax - paraC5.xMin - 2 * delta paraC5)
          / ((paraC5.nPoints : ℝ) - 3)) :=
  expectation_values_formulas paraC5 evZ 0 (by norm_num [paraC5])

/-- Concrete configuration with xMin = 0, xMax = 3, nPoints = 3, so that
Delta = 1 and the single interior coordinate is 1. -/
noncomputable def paraC6 : Para 0 :=
  ⟨0, 3, 3, 1, "linear", ![0, 3], ![0, 0], 1, 1⟩

/-- A 3-point eigenvector set with one column (1, 0, 1): its interior
quadrature sum is zero. -/
def evDeg : Fin 3 → Fin 1 → ℝ := fun i _ => if (i : ℕ) = 1 then 0 else 1

theorem paraC6_sum_eval (g : Fin (paraC6.nPoints - 2) → ℝ) :
    ∑ q, g q = g ⟨0, by norm_num [paraC6]⟩ :=
  Fin.sum_univ_one g

/-- C6 (code bug): neither the normalizer (sgl.py lines 51-55) nor the
observables stage (lines 73-82) contains any degeneracy guard.  A column
with interior quadrature sum 0 is still divided by sqrt 0 (a division by
zero, non-finite in IEEE arithmetic) and the result is handed on, and a
negative uncertainty radicand is still passed to np.sqrt (NaN in IEEE
arithmetic) and written to the persistence sink; nothing is detected,
clamped or surfaced. -/
theorem degeneracy_not_detected :
    eigenvector_norm (delta paraC6) (fun i => evDeg i 0) = 0 ∧
    (∀ i, norm_eigenvectors (delta paraC6) evDeg i 0
        = evDeg i 0 / Real.sqrt 0) ∧
    expval_squared paraC6 evW 0 - (expval paraC6 evW 0) ^ 2 = -12 ∧
    (expectation_values paraC6 evW).2 0 = Real.sqrt (-12) := by
  have h1 : eigenvector_norm (delta paraC6) (fun i => evDeg i 0) = 0 := by
    norm_num [eigenvector_norm, interiorIdx, Finset.sum_filter,
      Fin.sum_univ_three, evDeg]
  have hev : expval paraC6 evW 0 = 4 := by
    rw [expval, paraC6_sum_eval]
    norm_num [evW, x_i, linspace, delta, paraC6]
  have hevsq : expval_squared paraC6 evW 0 = 4 := by
    rw [expval_squared, paraC6_sum_eval]
    norm_num [evW, x_i, linspace, delta, paraC6]
  have hrad : expval_squared paraC6 evW 0 - (expval paraC6 evW 0) ^ 2
      = -12 := by
    rw [hev, hevsq]
    norm_num
  refine ⟨h1, ?_, hrad, ?_⟩
  · intro i
    show evDeg i 0
        / Real.sqrt (eigenvector_norm (delta paraC6) fun i2 => evDeg i2 0)
      = evDeg i 0 / Real.sqrt 0
    rw [h1]
  · show uncertainty paraC6 evW 0 = Real.sqrt (-12)
    rw [uncertainty, hrad]

/-- C8: a configuration whose interpolation method name is none of linear,
cspline, polynomial makes the interpolation stage fail before producing any
potential value (in the source no branch binds interpolation_fun, and line
36 raises before any numerical work), and the failure aborts the whole
solve: no Hamiltonian and no eigenpair is produced, whatever the external
interpolants are. -/
theorem unknown_method_aborts {m : ℕ} (p : Para m)
    (cspline_fun poly_fun : ℝ → ℝ)
    (h1 : p.interpolation_type ≠ "linear")
    (h2 : p.interpolation_type ≠ "cspline")
    (h3 : p.interpolation_type ≠ "polynomial") :
    interpolate_potential p cspline_fun poly_fun
        = .error SglError.configError ∧
    write_hamiltonian p cspline_fun poly_fun
        = .error SglError.configError ∧
    solve_hamiltonian p cspline_fun poly_fun
        = .error SglError.configError := by
  have hip : interpolate_potential p cspline_fun poly_fun
      = .error SglError.configError := by
    rw [interpolate_potential, if_neg h1, if_neg h2, if_neg h3]
  refine ⟨hip, ?_, ?_⟩
  · rw [write_hamiltonian, hip]
    rfl
  · rw [solve_hamiltonian, write_hamiltonian, hip]
    rfl

/-- A concrete configuration with the unrecognized method name "foo". -/
noncomputable def paraC8 : Para 0 :=
  ⟨0, 1, 3, 1, "foo", ![0, 1], ![0, 0], 1, 1⟩

theorem unknown_method_aborts_witness :
    interpolate_potential paraC8 id id = .error SglError.configError ∧
    write_hamiltonian paraC8 id id = .error SglError.configError ∧
    solve_hamiltonian paraC8 id id = .error SglError.configError :=
  unknown_method_aborts paraC8 id id (by decide) (by decide) (by decide)

theorem countLt_apply {M : ℕ} (xs : Fin M → ℝ) (hmono : StrictMono xs)
    (i : Fin M) : countLt xs (xs i) = (i : ℕ) := by
  rw [countLt]
  have hset : (Finset.univ.filter fun k => xs k < xs i) = Finset.Iio i := by
    ext k
    simp [Finset.mem_Iio, hmono.lt_iff_lt]
  rw [hset, Fin.card_Iio]

theorem linear_value_knot {m : ℕ} (xs ys : Fin (m + 2) → ℝ)
    (hmono : StrictMono xs) (i : Fin (m + 2)) :
    linear_value xs ys (xs i) = ys i := by
  have hcnt : countLt xs (xs i) = (i : ℕ) := countLt_apply xs hmono i
  rcases Nat.eq_zero_or_pos (i : ℕ) with h0 | hpos
  · have hc : (interpIdx xs (xs i)).castSucc = i := by
      apply Fin.ext
      simp [interpIdx, hcnt, h0]
    rw [linear_value, hc]
    simp
  · have hiv : (i : ℕ) - 1 < m + 1 := by have := i.isLt; omega
    have hidx : interpIdx xs (xs i) = ⟨(i : ℕ) - 1, hiv⟩ := by
      apply Fin.ext
      simp only [interpIdx, hcnt]
      have := i.isLt
      omega
    have hsucc : (interpIdx xs (xs i)).succ = i := by
      apply Fin.ext
      simp only [hidx, Fin.succ_mk]
      omega
    have hlt : (interpIdx xs (xs i)).castSucc < i := by
      rw [Fin.lt_def]
      simp only [hidx, Fin.castSucc_mk]
      omega
    have hden : xs i - xs (interpIdx xs (xs i)).castSucc ≠ 0 :=
      sub_ne_zero.mpr (ne_of_gt (hmono hlt))
    rw [linear_value, hsucc, mul_div_assoc, div_self hden, mul_one]
    ring

/-- C7: for the linear method, evaluating the interpolant at any control
point x_i returns exactly y_i, and the vectorized evaluation over the grid
fails with a domain error exactly when some grid point lies outside
[min x, max x] = [xs 0, xs last]; otherwise every grid point receives its
piecewise-linear value (no silent extrapolation). -/
theorem interp1d_exact_and_bounds {m P : ℕ} (xs ys : Fin (m + 2) → ℝ)
    (hmono : StrictMono xs) (g : Fin P → ℝ) :
    (∀ i, interp1d xs ys (xs i) = .ok (ys i)) ∧
    (∀ k, xs 0 ≤ xs k ∧ xs k ≤ xs (Fin.last (m + 1))) ∧
    ((interp_grid xs ys g = .error SglError.domainError) ↔
      ∃ i, g i < xs 0 ∨ xs (Fin.last (m + 1)) < g i) ∧
    (¬ (∃ i, g i < xs 0 ∨ xs (Fin.last (m + 1)) < g i) →
      interp_grid xs ys g = .ok fun i => linear_value xs ys (g i)) := by
  have hbounds : ∀ k, xs 0 ≤ xs k ∧ xs k ≤ xs (Fin.last (m + 1)) := fun k =>
    ⟨hmono.monotone (Fin.zero_le k), hmono.monotone (Fin.le_last k)⟩
  refine ⟨?_, hbounds, ?_, ?_⟩
  · intro i
    rw [interp1d, if_pos (hbounds i), linear_value_knot xs ys hmono i]
  · rw [interp_grid]
    split_ifs with hin
    · constructor
      · intro hcontra
        exact absurd hcontra (by simp)
      · intro ⟨i, hi⟩
        rcases hi with hlo | hhi
        · exact absurd (hin i).1 (not_le.mpr hlo)
        · exact absurd (hin i).2 (not_le.mpr hhi)
    · constructor
      · intro _
        push_neg at hin
        obtain ⟨i, hi⟩ := hin
        by_cases hlo : xs 0 ≤ g i
        · exact ⟨i, Or.inr (hi hlo)⟩
        · exact ⟨i, Or.inl (not_le.mp hlo)⟩
      · intro _
        rfl
  · intro hno
    rw [interp_grid, if_pos]
    intro i
    push_neg at hno
    obtain ⟨h1, h2⟩ := hno i
    exact ⟨h1, h2⟩

theorem interp1d_exact_and_bounds_witness :
    (∀ i, interp1d ![(0 : ℝ), 1] ![(3 : ℝ), 4] (![(0 : ℝ), 1] i)
        = .ok (![(3 : ℝ), 4] i)) ∧
    (∀ k, ![(0 : ℝ), 1] 0 ≤ ![(0 : ℝ), 1] k ∧
      ![(0 : ℝ), 1] k ≤ ![(0 : ℝ), 1] (Fin.last 1)) ∧
    ((interp_grid ![(0 : ℝ), 1] ![(3 : ℝ), 4] ![(1 : ℝ) / 2]
        = .error SglError.domainError) ↔
      ∃ i, ![(1 : ℝ) / 2] i < ![(0 : ℝ), 1] 0 ∨
        ![(0 : ℝ), 1] (Fin.last 1) < ![(1 : ℝ) / 2] i) ∧
    (¬ (∃ i, ![(1 : ℝ) / 2] i < ![(0 : ℝ), 1] 0 ∨
        ![(0 : ℝ), 1] (Fin.last 1) < ![(1 : ℝ) / 2] i) →
      interp_grid ![(0 : ℝ), 1] ![(3 : ℝ), 4] ![(1 : ℝ) / 2]
        = .ok fun i => linear_value ![(0 : ℝ), 1] ![(3 : ℝ), 4]
          (![(1 : ℝ) / 2] i)) :=
  interp1d_exact_and_bounds ![0, 1] ![3, 4]
    (by
      intro a b hab
      fin_cases a <;> fin_cases b <;>
        first
          | exact absurd hab (by decide)
          | norm_num)
    ![1 / 2]

theorem spectrum_sorted_monotone (n : ℕ) (d : Fin n → ℝ)
    (e : Fin (n - 1) → ℝ) : Monotone (spectrum_sorted n d e) :=
  Tuple.monotone_sort (tridiag_isHermitian n d e).eigenvalues

theorem eigvec_sorted_eigenpair (n : ℕ) (d : Fin n → ℝ)
    (e : Fin (n - 1) → ℝ) (i : Fin n) :
    Matrix.mulVec (tridiag n d e) (eigvec_sorted n d e i)
        = spectrum_sorted n d e i • eigvec_sorted n d e i ∧
    eigvec_sorted n d e i ≠ 0 :=
  ⟨(tridiag_isHermitian n d e).mulVec_eigenvectorBasis _,
   (tridiag_isHermitian n d e).eigenvectorBasis.orthonormal.ne_zero _⟩

theorem eigh_band_props (n : ℕ) (d : Fin n → ℝ) (e : Fin (n - 1) → ℝ)
    (fi la : ℕ) (h1 : 1 ≤ fi) (h2 : fi ≤ la) (h3 : la ≤ n) :
    (la - 1 + 1 - (fi - 1) = la - fi + 1) ∧
    Monotone (spectrum_sorted n d e) ∧
    (∃ σ : Equiv.Perm (Fin n), ∀ q, spectrum_sorted n d e q
        = (tridiag_isHermitian n d e).eigenvalues (σ q)) ∧
    Monotone (eigh_tridiagonal_vals n d e (fi - 1) (la - 1)) ∧
    (∀ q : Fin (la - 1 + 1 - (fi - 1)),
      eigh_tridiagonal_vals n d e (fi - 1) (la - 1) q
        = spectrum_sorted n d e
            ⟨fi - 1 + (q : ℕ), by have := q.isLt; omega⟩) ∧
    (∀ q : Fin (la - 1 + 1 - (fi - 1)),
      Matrix.mulVec (tridiag n d e)
          (eigh_tridiagonal_vecs n d e (fi - 1) (la - 1) q)
        = eigh_tridiagonal_vals n d e (fi - 1) (la - 1) q •
            eigh_tridiagonal_vecs n d e (fi - 1) (la - 1) q ∧
      eigh_tridiagonal_vecs n d e (fi - 1) (la - 1) q ≠ 0) := by
  have hin : ∀ q : Fin (la - 1 + 1 - (fi - 1)), fi - 1 + (q : ℕ) < n := by
    intro q
    have := q.isLt
    omega
  refine ⟨by omega, spectrum_sorted_monotone n d e,
    ⟨Tuple.sort (tridiag_isHermitian n d e).eigenvalues, fun q => rfl⟩,
    ?_, ?_, ?_⟩
  · intro a b hab
    show eigh_tridiagonal_vals n d e (fi - 1) (la - 1) a
      ≤ eigh_tridiagonal_vals n d e (fi - 1) (la - 1) b
    simp only [eigh_tridiagonal_vals]
    rw [dif_pos (hin a), dif_pos (hin b)]
    exact spectrum_sorted_monotone n d e
      (Fin.mk_le_mk.mpr (by have := Fin.le_def.mp hab; omega))
  · intro q
    simp only [eigh_tridiagonal_vals]
    rw [dif_pos (hin q)]
  · intro q
    simp only [eigh_tridiagonal_vals, eigh_tridiagonal_vecs]
    rw [dif_pos (hin q), dif_pos (hin q)]
    exact eigvec_sorted_eigenpair n d e _

/-- C1: for 1 <= first_eigenvalue <= last_eigenvalue <= nPoints, the
eigensolver stage applied to the full symmetric tridiagonal Hamiltonian
returns a band of length last-first+1 whose values are non-decreasing,
whose q-th entry is the (first+q)-th smallest eigenvalue of the full
spectrum (entry first-1+q of its monotone enumeration, a permutation of the
spectral-theorem eigenvalues), each paired with a nonzero eigenvector of
length nPoints for that very eigenvalue. -/
theorem eigh_band_correct {m : ℕ} (p : Para m) (V : Fin p.nPoints → ℝ)
    (h1 : 1 ≤ p.first_eigenvalue) (h2 : p.first_eigenvalue ≤ p.last_eigenvalue)
    (h3 : p.last_eigenvalue ≤ p.nPoints) :
    (p.last_eigenvalue - 1 + 1 - (p.first_eigenvalue - 1)
        = p.last_eigenvalue - p.first_eigenvalue + 1) ∧
    Monotone (spectrum_sorted p.nPoints (hamiltonian_diag p V)
      (hamiltonian_offdiag p)) ∧
    (∃ σ : Equiv.Perm (Fin p.nPoints),
      ∀ q, spectrum_sorted p.nPoints (hamiltonian_diag p V)
          (hamiltonian_offdiag p) q
        = (tridiag_isHermitian p.nPoints (hamiltonian_diag p V)
            (hamiltonian_offdiag p)).eigenvalues (σ q)) ∧
    Monotone (eigh_tridiagonal_vals p.nPoints (hamiltonian_diag p V)
      (hamiltonian_offdiag p) (p.first_eigenvalue - 1)
      (p.last_eigenvalue - 1)) ∧
    (∀ q : Fin (p.last_eigenvalue - 1 + 1 - (p.first_eigenvalue - 1)),
      eigh_tridiagonal_vals p.nPoints (hamiltonian_diag p V)
          (hamiltonian_offdiag p) (p.first_eigenvalue - 1)
          (p.last_eigenvalue - 1) q
        = spectrum_sorted p.nPoints (hamiltonian_diag p V)
            (hamiltonian_offdiag p)
            ⟨p.first_eigenvalue - 1 + (q : ℕ), by have := q.isLt; omega⟩) ∧
    (∀ q : Fin (p.last_eigenvalue - 1 + 1 - (p.first_eigenvalue - 1)),
      Matrix.mulVec
          (tridiag p.nPoints (hamiltonian_diag p V) (hamiltonian_offdiag p))
          (eigh_tridiagonal_vecs p.nPoints (hamiltonian_diag p V)
            (hamiltonian_offdiag p) (p.first_eigenvalue - 1)
            (p.last_eigenvalue - 1) q)
        = eigh_tridiagonal_vals p.nPoints (hamiltonian_diag p V)
            (hamiltonian_offdiag p) (p.first_eigenvalue - 1)
            (p.last_eigenvalue - 1) q •
          eigh_tridiagonal_vecs p.nPoints (hamiltonian_diag p V)
            (hamiltonian_offdiag p) (p.first_eigenvalue - 1)
            (p.last_eigenvalue - 1) q ∧
      eigh_tridiagonal_vecs p.nPoints (hamiltonian_diag p V)
          (hamiltonian_offdiag p) (p.first_eigenvalue - 1)
          (p.last_eigenvalue - 1) q ≠ 0) :=
  eigh_band_props p.nPoints (hamiltonian_diag p V) (hamiltonian_offdiag p)
    p.first_eigenvalue p.last_eigenvalue h1 h2 h3

/-- Concrete configuration with nPoints = 3 selecting the eigenvalue band
1..2. -/
noncomputable def paraC1 : Para 0 :=
  ⟨0, 1, 3, 1, "linear", ![0, 1], ![0, 0], 1, 2⟩

/-- The zero potential on the grid of `paraC1`. -/
def VW : Fin paraC1.nPoints → ℝ := fun _ => 0

theorem eigh_band_correct_witness :
    (2 - 1 + 1 - (1 - 1) = 2 - 1 + 1) ∧
    Monotone (spectrum_sorted 3 (hamiltonian_diag paraC1 VW)
      (hamiltonian_offdiag paraC1)) ∧
    (∃ σ : Equiv.Perm (Fin 3),
      ∀ q, spectrum_sorted 3 (hamiltonian_diag paraC1 VW)
          (hamiltonian_offdiag paraC1) q
        = (tridiag_isHermitian 3 (hamiltonian_diag paraC1 VW)
            (hamiltonian_offdiag paraC1)).eigenvalues (σ q)) ∧
    Monotone (eigh_tridiagonal_vals 3 (hamiltonian_diag paraC1 VW)
      (hamiltonian_offdiag paraC1) (1 - 1) (2 - 1)) ∧
    (∀ q : Fin (2 - 1 + 1 - (1 - 1)),
      eigh_tridiagonal_vals 3 (hamiltonian_diag paraC1 VW)
          (hamiltonian_offdiag paraC1) (1 - 1) (2 - 1) q
        = spectrum_sorted 3 (hamiltonian_diag paraC1 VW)
            (hamiltonian_offdiag paraC1)
            ⟨1 - 1 + (q : ℕ), by have := q.isLt; omega⟩) ∧
    (∀ q : Fin (2 - 1 + 1 - (1 - 1)),
      Matrix.mulVec
          (tridiag 3 (hamiltonian_diag paraC1 VW) (hamiltonian_offdiag paraC1))
          (eigh_tridiagonal_vecs 3 (hamiltonian_diag paraC1 VW)
            (hamiltonian_offdiag paraC1) (1 - 1) (2 - 1) q)
        = eigh_tridiagonal_vals 3 (hamiltonian_diag paraC1 VW)
            (hamiltonian_offdiag paraC1) (1 - 1) (2 - 1) q •
          eigh_tridiagonal_vecs 3 (hamiltonian_diag paraC1 VW)
            (hamiltonian_offdiag paraC1) (1 - 1) (2 - 1) q ∧
      eigh_tridiagonal_vecs 3 (hamiltonian_diag paraC1 VW)
          (hamiltonian_offdiag paraC1) (1 - 1) (2 - 1) q ≠ 0) :=
  eigh_band_correct paraC1 VW (by norm_num [paraC1]) (by norm_num [paraC1])
    (by norm_num [paraC1])
